import Mathlib

/-!
Shallow embedding of the tslint rule `no-self-assign`
(`src/rules/noSelfAssignRule.ts`).

The rule walks a TypeScript syntax tree and reports self-assignments.
We embed the fragment of the TypeScript AST that the rule inspects as the
inductive type `Node`, translate each helper of the source file
(`isSameIdentifier`, `isSameProperty`, `isSameMember`,
`isSameElementAccess`, `isPropertySelfAssigned`, `doCheck`, `walk`,
`Rule.apply`, `Rule.FAILURE_STRING`) into a Lean function of the same
name, and prove the specified properties about them.
-/

namespace NoSelfAssign

/-- Binary operator token kinds, as far as the rule distinguishes them:
the rule only tests `node.operatorToken.kind === ts.SyntaxKind.EqualsToken`,
so every other operator (including compound assignments such as `+=`)
behaves alike and is collapsed into `plusEqualsToken`/`otherOp`
representatives. -/
inductive OperatorKind where
  | equalsToken
  | plusEqualsToken
  | otherOp
deriving DecidableEq, Repr

/-- The fragment of the TypeScript AST consumed by the rule.

* `ident text` — an `Identifier`; `text` is its `.text`.
* `literal text raw` — a `LiteralExpression` (string/numeric literal);
  `text` is the cooked `.text`, `raw` is the source text (`getText()`).
* `thisKeyword` — the `this` keyword expression.
* `arrayLit elements` — an `ArrayLiteralExpression` with its ordered
  `elements` list.
* `objectLit properties` — an `ObjectLiteralExpression` with its ordered
  `properties` list.
* `shorthand name objectAssignmentInitializer` — a
  `ShorthandPropertyAssignment`.
* `spreadAssignment e` / `spreadElement e` — spread entries of object and
  array literals.
* `propAccess expression name` — a `PropertyAccessExpression`; member
  names are kept as their text (the rule only ever compares `.text`).
* `elemAccess expression argumentExpression` — an
  `ElementAccessExpression`; the argument may be absent on malformed
  trees, which the source guards against.
* `binary left operatorToken right` — a `BinaryExpression`.
* `propDecl name initializer` — a class `PropertyDeclaration`.
* `other children` — any other node kind; the walker recurses into its
  children and no check applies to it. -/
inductive Node where
  | ident (text : String)
  | literal (text : String) (raw : String)
  | thisKeyword
  | arrayLit (elements : List Node)
  | objectLit (properties : List Node)
  | shorthand (name : Node) (objectAssignmentInitializer : Option Node)
  | spreadAssignment (expression : Node)
  | spreadElement (expression : Node)
  | propAccess (expression : Node) (name : String)
  | elemAccess (expression : Node) (argumentExpression : Option Node)
  | binary (left : Node) (operatorToken : OperatorKind) (right : Node)
  | propDecl (name : Node) (initializer : Option Node)
  | other (children : List Node)

/-- tsutils `isSpreadElement`. -/
def Node.isSpreadElement : Node → Bool
  | .spreadElement _ => true
  | _ => false

/-- tsutils `isSpreadAssignment`. -/
def Node.isSpreadAssignment : Node → Bool
  | .spreadAssignment _ => true
  | _ => false

/-- Operator token source text (only `=` and `+=` are ever rendered in the
examples; other operators are collapsed). -/
def opText : OperatorKind → String
  | .equalsToken => "="
  | .plusEqualsToken => "+="
  | .otherOp => "?"

mutual
/-- `node.getText()`: the source text of a node, reconstructed from the
tree (identifiers render as their text, literals as their raw source
text, property accesses as `base.name`, and so on). -/
def getText : Node → String
  | .ident t => t
  | .literal _ raw => raw
  | .thisKeyword => "this"
  | .arrayLit es => "[" ++ getTextList es ++ "]"
  | .objectLit ps => "\x7b" ++ getTextList ps ++ "\x7d"
  | .shorthand n none => getText n
  | .shorthand n (some e) => getText n ++ " = " ++ getText e
  | .spreadAssignment e => "..." ++ getText e
  | .spreadElement e => "..." ++ getText e
  | .propAccess e n => getText e ++ "." ++ n
  | .elemAccess e none => getText e ++ "[]"
  | .elemAccess e (some a) => getText e ++ "[" ++ getText a ++ "]"
  | .binary l op r => getText l ++ " " ++ opText op ++ " " ++ getText r
  | .propDecl n none => getText n
  | .propDecl n (some e) => getText n ++ " = " ++ getText e
  | .other cs => getTextList cs

/-- Renders a comma-separated child list (used by `getText`). -/
def getTextList : List Node → String
  | [] => ""
  | [n] => getText n
  | n :: ns => getText n ++ ", " ++ getTextList ns
end

/-- `Rule.FAILURE_STRING(name)` from the source. -/
def FAILURE_STRING (name : String) : String :=
  "variable \x27" ++ name ++ "\x27 is assigned to itself."

/-- A reported failure: the node the failure is anchored at
(`addFailureAtNode`) and its message. -/
structure Finding where
  node : Node
  message : String

/-- `report(node)`: one failure at `node` with the failure message built
from the node's source text. -/
def report (n : Node) : List Finding :=
  [⟨n, FAILURE_STRING (getText n)⟩]

/-- `isSameIdentifier(left, right)` from the source: both sides are
identifiers with equal text. -/
def isSameIdentifier : Node → Node → Bool
  | .ident l, .ident r => l == r
  | _, _ => false

/-- `isSameProperty(left, right)` from the source: both sides are property
accesses whose names have equal text. -/
def isSameProperty : Node → Node → Bool
  | .propAccess _ ln, .propAccess _ rn => ln == rn
  | _, _ => false

/-- `isSameMember(left, right)` from the source: the property names match
(`isSameProperty`), and either both base expressions are again property
accesses and are recursively the same member, or both bases are
identifiers with equal text. -/
def isSameMember : Node → Node → Bool
  | .propAccess lexp ln, .propAccess rexp rn =>
    if ln == rn then
      match lexp, rexp with
      | .propAccess _ _, .propAccess _ _ => isSameMember lexp rexp
      | .ident lt, .ident rt => lt == rt
      | _, _ => false
    else false
  | _, _ => false

/-- `isSameElementAccess(left, right)` from the source: the two base
expressions are the same identifier, both argument expressions are
present, and they are either two identifiers with equal text or two
literal expressions with equal (cooked) text. -/
def isSameElementAccess : Node → Node → Bool
  | .elemAccess lexp larg, .elemAccess rexp rarg =>
    if isSameIdentifier lexp rexp then
      match larg, rarg with
      | some (.ident lt), some (.ident rt) => lt == rt
      | some (.literal lt _), some (.literal rt _) => lt == rt
      | _, _ => false
    else false
  | _, _ => false

/-- `isPropertySelfAssigned(prop)` from the source, on the fields of a
`PropertyDeclaration`: the declared name is an identifier, the
initializer is present and is a property access whose base expression is
the `this` keyword and whose member name has the same text as the
declared name. -/
def isPropertySelfAssigned (name : Node) (initializer : Option Node) : Bool :=
  match name, initializer with
  | .ident nameText, some (.propAccess expr initializerName) =>
    (match expr with
     | .thisKeyword => true
     | _ => false) && nameText == initializerName
  | _, _ => false

/-- The `startRight` computation of `doCheck`'s object-literal branch:
1 plus the index of the last spread property of the right-hand object
literal, or 0 when there is no spread property. -/
def startRightOf : List Node → Nat
  | [] => 0
  | p :: ps =>
    let s := startRightOf ps
    if s == 0 then (if p.isSpreadAssignment then 1 else 0) else s + 1

mutual
/-- `doCheck(left, right)` from the source. `props` is the truthiness of
`ctx.options.props`. The function:
returns immediately when either side is absent; reports `right` when the
two sides are the same identifier; on two array literals runs the
pairwise element scan (`checkArrayElems`); on two object literals
compares every left property against every right property from index
`startRight` on (`checkObjectProps` starting at `startRightOf`); on two
shorthand property assignments whose left side has no
`objectAssignmentInitializer` recurses on the two names; and, when
`props` holds, reports `right` for equal member chains
(`isSameMember`, with an early return that skips the element-access
check) or equal element accesses (`isSameElementAccess`). -/
def doCheck (props : Bool) (left right : Option Node) : List Finding :=
  match left, right with
  | none, _ => []
  | some _, none => []
  | some l, some r =>
    (if isSameIdentifier l r then report r else [])
    ++ (match l, r with
        | .arrayLit ls, .arrayLit rs => checkArrayElems props ls rs
        | _, _ => [])
    ++ (match l, r with
        | .objectLit lps, .objectLit rps =>
          checkObjectProps props lps rps (startRightOf rps)
        | _, _ => [])
    ++ (match l, r with
        | .shorthand lname none, .shorthand rname _ =>
          doCheck props (some lname) (some rname)
        | _, _ => [])
    ++ (if props then
          match l, r with
          | .propAccess _ _, .propAccess _ _ =>
            if isSameMember l r then report r else []
          | .elemAccess _ _, .elemAccess _ _ =>
            if isSameElementAccess l r then report r else []
          | _, _ => []
        else [])
termination_by (match left with | some l => sizeOf l | none => 0)
  + (match right with | some r => sizeOf r | none => 0)
decreasing_by all_goals (simp <;> omega)

/-- The array-literal loop of `doCheck`: check elements pairwise at equal
indices (the recursion runs out at `min` of the lengths), and break out
of the loop right after a right-hand element that is a spread element. -/
def checkArrayElems (props : Bool) (ls rs : List Node) : List Finding :=
  match ls, rs with
  | l :: lrest, r :: rrest =>
    doCheck props (some l) (some r)
      ++ (if r.isSpreadElement then [] else checkArrayElems props lrest rrest)
  | _, _ => []
termination_by sizeOf ls + sizeOf rs
decreasing_by all_goals (simp <;> omega)

/-- The outer object-literal loop of `doCheck`: for each left property,
compare it against the right properties from index `startRight` on. -/
def checkObjectProps (props : Bool) (lps rps : List Node) (startRight : Nat) :
    List Finding :=
  match lps with
  | [] => []
  | lp :: rest =>
    checkLeftPropFrom props lp rps startRight
      ++ checkObjectProps props rest rps startRight
termination_by sizeOf lps + sizeOf rps
decreasing_by all_goals (simp <;> omega)

/-- The inner object-literal loop of `doCheck`: compare one left property
against every right property from index `j` on (`for (let j = startRight;
j < right.properties.length; j++) doCheck(leftProp, right.properties[j])`). -/
def checkLeftPropFrom (props : Bool) (lp : Node) (rps : List Node) (j : Nat) :
    List Finding :=
  match rps, j with
  | [], _ => []
  | _ :: rest, k + 1 => checkLeftPropFrom props lp rest k
  | rp :: rest, 0 =>
    doCheck props (some lp) (some rp) ++ checkLeftPropFrom props lp rest 0
termination_by sizeOf lp + sizeOf rps
decreasing_by all_goals (simp <;> omega)
end

/-- The per-node checks of `recur` in `walk`: a binary expression whose
operator token is the plain `=` runs `doCheck` on its operands, and a
property declaration that is a `this`-property self-assignment reports
its initializer. -/
def checksAt (props : Bool) (n : Node) : List Finding :=
  (match n with
   | .binary l .equalsToken r => doCheck props (some l) (some r)
   | _ => [])
  ++ (match n with
      | .propDecl name init =>
        if isPropertySelfAssigned name init then
          match init with
          | some i => report i
          | none => []
        else []
      | _ => [])

mutual
/-- `recur(node)` of `walk`: run the checks at this node, then recurse
into every child (`ts.forEachChild(node, recur)`); children are visited
in source order and traversal never stops early. -/
def walkNode (props : Bool) (n : Node) : List Finding :=
  checksAt props n
    ++ (match n with
        | .ident _ => []
        | .literal _ _ => []
        | .thisKeyword => []
        | .arrayLit es => walkList props es
        | .objectLit ps => walkList props ps
        | .shorthand name init => walkNode props name ++ walkOpt props init
        | .spreadAssignment e => walkNode props e
        | .spreadElement e => walkNode props e
        | .propAccess e _ => walkNode props e
        | .elemAccess e a => walkNode props e ++ walkOpt props a
        | .binary l _ r => walkNode props l ++ walkNode props r
        | .propDecl name init => walkNode props name ++ walkOpt props init
        | .other cs => walkList props cs)
termination_by sizeOf n
decreasing_by all_goals (simp <;> omega)

/-- Walk an optional child. -/
def walkOpt (props : Bool) (o : Option Node) : List Finding :=
  match o with
  | none => []
  | some n => walkNode props n
termination_by sizeOf o
decreasing_by all_goals (simp <;> omega)

/-- Walk a child list in order. -/
def walkList (props : Bool) (ns : List Node) : List Finding :=
  match ns with
  | [] => []
  | n :: rest => walkNode props n ++ walkList props rest
termination_by sizeOf ns
decreasing_by all_goals (simp <;> omega)
end

/-- The rule's `Option` interface as it is actually consumed: the `props`
field may be absent (`none`) because the first rule argument is used
unchecked; `ctx.options.props` is then `undefined`, which is falsy. -/
structure OptionArg where
  props : Option Bool

/-- The option selection in `Rule.apply`:
`this.ruleArguments.length > 0 ? this.ruleArguments[0] : \x7b props: true \x7d`. -/
def ruleOption (ruleArguments : List OptionArg) : OptionArg :=
  match ruleArguments with
  | [] => ⟨some true⟩
  | a :: _ => a

/-- JavaScript truthiness of `ctx.options.props` (a boolean or
`undefined`): only `true` is truthy. -/
def truthy (b : Option Bool) : Bool := b == some true

/-- `Rule.apply` followed by `walk`: pick the options from the rule
arguments (defaulting to `\x7b props: true \x7d` when there are none) and
run `recur` over every child of the source file, here given as its
statement list. -/
def applyRule (ruleArguments : List OptionArg) (statements : List Node) :
    List Finding :=
  walkList (truthy (ruleOption ruleArguments).props) statements

/-- Specification-side description of the array-literal scan: the element
pairs at equal indices (`zip` stops at the shorter list), cut off right
after the first pair whose right element is a spread element. -/
def pairsUntilSpread : List (Node × Node) → List (Node × Node)
  | [] => []
  | (l, r) :: ps => (l, r) :: (if r.isSpreadElement then [] else pairsUntilSpread ps)

/-- The key comparison inside `isSameElementAccess`, as a named function:
two identifiers with equal text, or two literal expressions with equal
cooked text. -/
def sameKey : Node → Node → Bool
  | .ident lt, .ident rt => lt == rt
  | .literal lt _, .literal rt _ => lt == rt
  | _, _ => false

/-! ## Helper lemmas -/

/-- `isSameIdentifier` holds exactly for two identifiers with the same text. -/
theorem isSameIdentifier_iff (l r : Node) :
    isSameIdentifier l r = true ↔ ∃ t, l = .ident t ∧ r = .ident t := by
  cases l <;> cases r <;> simp [isSameIdentifier]
  exact eq_comm

/-- A right-hand object literal without spread properties has `startRight = 0`. -/
theorem startRightOf_eq_zero (ps : List Node)
    (h : ∀ p ∈ ps, p.isSpreadAssignment = false) : startRightOf ps = 0 := by
  induction ps with
  | nil => simp [startRightOf]
  | cons p rest ih =>
    have hp := h p (List.mem_cons_self p rest)
    have hr : ∀ q ∈ rest, q.isSpreadAssignment = false :=
      fun q hq => h q (List.mem_cons_of_mem p hq)
    simp [startRightOf, ih hr, hp]

/-- The inner object loop from index `j` checks the left property against
exactly the right properties from index `j` on. -/
theorem checkLeftPropFrom_eq_drop (props : Bool) (lp : Node) (rps : List Node)
    (j : Nat) :
    checkLeftPropFrom props lp rps j =
      (rps.drop j).flatMap fun rp => doCheck props (some lp) (some rp) := by
  induction rps generalizing j with
  | nil => simp [checkLeftPropFrom]
  | cons rp rest ih =>
    cases j with
    | zero => simp [checkLeftPropFrom, ih]
    | succ k => simp [checkLeftPropFrom, ih]

/-- The object loops are an all-pairs comparison of the left properties
against the right properties from index `k` on. -/
theorem checkObjectProps_eq_flatMap (props : Bool) (lps rps : List Node) (k : Nat) :
    checkObjectProps props lps rps k =
      lps.flatMap fun lp => (rps.drop k).flatMap fun rp =>
        doCheck props (some lp) (some rp) := by
  induction lps with
  | nil => simp [checkObjectProps]
  | cons lp rest ih => simp [checkObjectProps, checkLeftPropFrom_eq_drop, ih]

/-- `isSameElementAccess` on two element accesses with present arguments is
the conjunction of the base comparison and the key comparison. -/
theorem isSameElementAccess_some (b1 b2 a1 a2 : Node) :
    isSameElementAccess (.elemAccess b1 (some a1)) (.elemAccess b2 (some a2)) =
      (isSameIdentifier b1 b2 && sameKey a1 a2) := by
  cases hb : isSameIdentifier b1 b2
  · simp [isSameElementAccess, hb]
  · cases a1 <;> cases a2 <;> simp [isSameElementAccess, hb, sameKey]

/-- Characterization of the element-access key comparison. -/
theorem sameKey_iff (a1 a2 : Node) :
    sameKey a1 a2 = true ↔
      ((∃ s, a1 = .ident s ∧ a2 = .ident s) ∨
       (∃ s r1 r2, a1 = .literal s r1 ∧ a2 = .literal s r2)) := by
  cases a1 <;> cases a2 <;> simp [sameKey] <;> exact eq_comm

/-- An element access with an absent left argument never matches. -/
theorem isSameElementAccess_none_left (b1 b2 : Node) (k2 : Option Node) :
    isSameElementAccess (.elemAccess b1 none) (.elemAccess b2 k2) = false := by
  cases hb : isSameIdentifier b1 b2 <;> simp [isSameElementAccess, hb]

/-- An element access with an absent right argument never matches. -/
theorem isSameElementAccess_none_right (b1 b2 : Node) (k1 : Option Node) :
    isSameElementAccess (.elemAccess b1 k1) (.elemAccess b2 none) = false := by
  cases hb : isSameIdentifier b1 b2 <;> cases k1 <;> simp [isSameElementAccess, hb]

/-! ## Claim theorems -/

/-- C5: for every simple assignment whose left and right sides are
identifiers with identical text, the analysis yields exactly one finding,
anchored at the right-hand node, whose message is exactly
`variable '<text>' is assigned to itself.` where `<text>` is the source
text of the right-hand expression. -/
theorem c5_identifier_self_assignment (x : String) :
    applyRule [] [Node.other [Node.binary (.ident x) .equalsToken (.ident x)]] =
      [⟨.ident x, "variable \x27" ++ x ++ "\x27 is assigned to itself."⟩] := by
  simp [applyRule, walkList, walkNode, walkOpt, checksAt, ruleOption, truthy,
    doCheck, isSameIdentifier, isPropertySelfAssigned, report, FAILURE_STRING,
    getText]

/-- C7: only the plain `=` operator triggers the check; a binary
expression with any other operator (in particular the compound `+=`)
yields zero findings, for every identifier text. -/
theorem c7_compound_operators_excluded (x : String) (op : OperatorKind)
    (h : op ≠ .equalsToken) :
    applyRule [] [Node.other [Node.binary (.ident x) op (.ident x)]] = [] := by
  cases op with
  | equalsToken => exact absurd rfl h
  | plusEqualsToken =>
    simp [applyRule, walkList, walkNode, walkOpt, checksAt, ruleOption, truthy,
      isPropertySelfAssigned]
  | otherOp =>
    simp [applyRule, walkList, walkNode, walkOpt, checksAt, ruleOption, truthy,
      isPropertySelfAssigned]

/-- C7 witness: `x += x;` yields zero findings. -/
theorem c7_compound_operators_excluded_witness :
    applyRule []
      [Node.other [Node.binary (.ident "x") .plusEqualsToken (.ident "x")]] = [] :=
  c7_compound_operators_excluded "x" .plusEqualsToken (by decide)

/-- C8: the pairwise check is total and silent on degenerate inputs: an
absent side yields no finding and no error, and mismatched structural
shapes (here `a = \x7ba\x7d;`: identifier against object literal) fail
every rule silently with zero findings. -/
theorem c8_degenerate_inputs_silent :
    (∀ (props : Bool) (right : Option Node), doCheck props none right = []) ∧
    (∀ (props : Bool) (left : Node), doCheck props (some left) none = []) ∧
    applyRule [] [Node.other [Node.binary (.ident "a") .equalsToken
      (.objectLit [.shorthand (.ident "a") none])]] = [] := by
  refine ⟨fun props right => by simp [doCheck], fun props left => by simp [doCheck], ?_⟩
  simp [applyRule, walkList, walkNode, walkOpt, checksAt, ruleOption, truthy,
    doCheck, checkObjectProps, checkLeftPropFrom, startRightOf,
    isSameIdentifier, isPropertySelfAssigned]

/-- C9: the `props: true` default applies only when the rule has no
arguments at all; a supplied first argument is used as-is, so an options
object lacking the `props` field, or carrying `props: false`, disables
the property-access check that the no-arguments default enables. -/
theorem c9_default_only_without_arguments :
    ruleOption [] = ⟨some true⟩ ∧
    (∀ (a : OptionArg) (rest : List OptionArg), ruleOption (a :: rest) = a) ∧
    applyRule [⟨none⟩] [Node.other [Node.binary
      (.propAccess (.ident "a") "b") .equalsToken
      (.propAccess (.ident "a") "b")]] = [] ∧
    applyRule [⟨some false⟩] [Node.other [Node.binary
      (.propAccess (.ident "a") "b") .equalsToken
      (.propAccess (.ident "a") "b")]] = [] ∧
    applyRule [] [Node.other [Node.binary
      (.propAccess (.ident "a") "b") .equalsToken
      (.propAccess (.ident "a") "b")]] =
      [⟨.propAccess (.ident "a") "b",
        "variable \x27a.b\x27 is assigned to itself."⟩] := by
  refine ⟨rfl, fun a rest => rfl, ?_, ?_, ?_⟩ <;>
    simp [applyRule, walkList, walkNode, walkOpt, checksAt, ruleOption, truthy,
      doCheck, isSameIdentifier, isSameMember, isSameProperty,
      isPropertySelfAssigned, report, FAILURE_STRING, getText]

/-- C2: array against array is a pairwise comparison at equal indices up
to the shorter length, and the scan stops right after a right-hand spread
element while overall traversal continues: `[a, b] = [a, b];` yields two
findings, `[a, b] = [a, ...rest];` yields exactly one (for `a`), and an
assignment nested inside the spread is still found by the walker. -/
theorem c2_array_pairwise_stops_at_spread :
    (∀ (props : Bool) (ls rs : List Node),
      checkArrayElems props ls rs =
        (pairsUntilSpread (ls.zip rs)).flatMap fun p =>
          doCheck props (some p.1) (some p.2)) ∧
    (∀ (props : Bool) (ls rs : List Node),
      doCheck props (some (.arrayLit ls)) (some (.arrayLit rs)) =
        checkArrayElems props ls rs) ∧
    applyRule [] [Node.other [Node.binary
      (.arrayLit [.ident "a", .ident "b"]) .equalsToken
      (.arrayLit [.ident "a", .ident "b"])]] =
      [⟨.ident "a", "variable \x27a\x27 is assigned to itself."⟩,
       ⟨.ident "b", "variable \x27b\x27 is assigned to itself."⟩] ∧
    applyRule [] [Node.other [Node.binary
      (.arrayLit [.ident "a", .ident "b"]) .equalsToken
      (.arrayLit [.ident "a", .spreadElement (.ident "rest")])]] =
      [⟨.ident "a", "variable \x27a\x27 is assigned to itself."⟩] ∧
    applyRule [] [Node.other [Node.binary
      (.arrayLit [.ident "a", .ident "b"]) .equalsToken
      (.arrayLit [.ident "a",
        .spreadElement (.binary (.ident "c") .equalsToken (.ident "c"))])]] =
      [⟨.ident "a", "variable \x27a\x27 is assigned to itself."⟩,
       ⟨.ident "c", "variable \x27c\x27 is assigned to itself."⟩] := by
  refine ⟨?_, ?_, ?_, ?_, ?_⟩
  · intro props ls rs
    induction ls generalizing rs with
    | nil => cases rs <;> simp [checkArrayElems, pairsUntilSpread, List.zip]
    | cons l lrest ih =>
      cases rs with
      | nil => simp [checkArrayElems, pairsUntilSpread, List.zip]
      | cons r rrest =>
        by_cases h : r.isSpreadElement <;>
          simp [checkArrayElems, pairsUntilSpread, h, ih, List.zip]
  · intro props ls rs
    simp [doCheck, isSameIdentifier]
  · simp [applyRule, walkList, walkNode, walkOpt, checksAt, ruleOption, truthy,
      doCheck, checkArrayElems, isSameIdentifier, isPropertySelfAssigned,
      Node.isSpreadElement, report, FAILURE_STRING, getText]
  · simp [applyRule, walkList, walkNode, walkOpt, checksAt, ruleOption, truthy,
      doCheck, checkArrayElems, isSameIdentifier, isPropertySelfAssigned,
      Node.isSpreadElement, report, FAILURE_STRING, getText]
  · simp [applyRule, walkList, walkNode, walkOpt, checksAt, ruleOption, truthy,
      doCheck, checkArrayElems, isSameIdentifier, isPropertySelfAssigned,
      Node.isSpreadElement, report, FAILURE_STRING, getText]

/-- C3: the `props` option gates exactly the property-access and
element-access rules and defaults to true: `a.b.c = a.b.c;` yields one
finding by default and with `props: true`, zero with `props: false`;
element access is gated the same way; identifier, array, object,
shorthand and field-initializer checks fire even with `props: false`. -/
theorem c3_check_properties_gates_rules_5_6 :
    applyRule [] [Node.other [Node.binary
      (.propAccess (.propAccess (.ident "a") "b") "c") .equalsToken
      (.propAccess (.propAccess (.ident "a") "b") "c")]] =
      [⟨.propAccess (.propAccess (.ident "a") "b") "c",
        "variable \x27a.b.c\x27 is assigned to itself."⟩] ∧
    applyRule [⟨some true⟩] [Node.other [Node.binary
      (.propAccess (.propAccess (.ident "a") "b") "c") .equalsToken
      (.propAccess (.propAccess (.ident "a") "b") "c")]] =
      [⟨.propAccess (.propAccess (.ident "a") "b") "c",
        "variable \x27a.b.c\x27 is assigned to itself."⟩] ∧
    applyRule [⟨some false⟩] [Node.other [Node.binary
      (.propAccess (.propAccess (.ident "a") "b") "c") .equalsToken
      (.propAccess (.propAccess (.ident "a") "b") "c")]] = [] ∧
    applyRule [⟨some false⟩] [Node.other [Node.binary
      (.elemAccess (.ident "a") (some (.literal "x" "\"x\""))) .equalsToken
      (.elemAccess (.ident "a") (some (.literal "x" "\"x\"")))]] = [] ∧
    applyRule [⟨some true⟩] [Node.other [Node.binary
      (.elemAccess (.ident "a") (some (.literal "x" "\"x\""))) .equalsToken
      (.elemAccess (.ident "a") (some (.literal "x" "\"x\"")))]] =
      [⟨.elemAccess (.ident "a") (some (.literal "x" "\"x\"")),
        "variable \x27a[\"x\"]\x27 is assigned to itself."⟩] ∧
    applyRule [⟨some false⟩]
      [Node.other [Node.binary (.ident "x") .equalsToken (.ident "x")]] =
      [⟨.ident "x", "variable \x27x\x27 is assigned to itself."⟩] ∧
    applyRule [⟨some false⟩] [Node.other [Node.binary
      (.arrayLit [.ident "a"]) .equalsToken (.arrayLit [.ident "a"])]] =
      [⟨.ident "a", "variable \x27a\x27 is assigned to itself."⟩] ∧
    applyRule [⟨some false⟩] [Node.other [Node.other [Node.binary
      (.objectLit [.shorthand (.ident "a") none]) .equalsToken
      (.objectLit [.shorthand (.ident "a") none])]]] =
      [⟨.ident "a", "variable \x27a\x27 is assigned to itself."⟩] ∧
    applyRule [⟨some false⟩] [Node.other [Node.propDecl (.ident "foo")
      (some (.propAccess .thisKeyword "foo"))]] =
      [⟨.propAccess .thisKeyword "foo",
        "variable \x27this.foo\x27 is assigned to itself."⟩] := by
  refine ⟨?_, ?_, ?_, ?_, ?_, ?_, ?_, ?_, ?_⟩ <;>
    simp [applyRule, walkList, walkNode, walkOpt, checksAt, ruleOption, truthy,
      doCheck, checkArrayElems, checkObjectProps, checkLeftPropFrom, startRightOf,
      isSameIdentifier, isSameMember, isSameProperty, isSameElementAccess,
      isPropertySelfAssigned, Node.isSpreadElement, Node.isSpreadAssignment,
      report, FAILURE_STRING, getText]

/-- C1: for object against object, `startRight` is 1 plus the index of
the last spread property of the right side (0 without spread), and every
left property is compared against every right property at index at least
`startRight` (all-pairs, not position-matched); consequently
`(\x7ba, b\x7d = \x7ba, ...x, b\x7d);` yields exactly the finding for `b`,
`(\x7ba, b\x7d = \x7b...x, a, b\x7d);` yields the two findings, and the
all-pairs swap `(\x7ba, b\x7d = \x7bb, a\x7d);` also yields two. -/
theorem c1_object_all_pairs_after_last_spread :
    (∀ ps : List Node, (∀ p ∈ ps, p.isSpreadAssignment = false) →
      startRightOf ps = 0) ∧
    (∀ (pre post : List Node) (p : Node), p.isSpreadAssignment = true →
      (∀ q ∈ post, q.isSpreadAssignment = false) →
      startRightOf (pre ++ p :: post) = pre.length + 1) ∧
    (∀ (props : Bool) (lps rps : List Node),
      doCheck props (some (.objectLit lps)) (some (.objectLit rps)) =
        lps.flatMap fun lp => (rps.drop (startRightOf rps)).flatMap fun rp =>
          doCheck props (some lp) (some rp)) ∧
    applyRule [] [Node.other [Node.other [Node.binary
      (.objectLit [.shorthand (.ident "a") none, .shorthand (.ident "b") none])
      .equalsToken
      (.objectLit [.shorthand (.ident "a") none, .spreadAssignment (.ident "x"),
                   .shorthand (.ident "b") none])]]] =
      [⟨.ident "b", "variable \x27b\x27 is assigned to itself."⟩] ∧
    applyRule [] [Node.other [Node.other [Node.binary
      (.objectLit [.shorthand (.ident "a") none, .shorthand (.ident "b") none])
      .equalsToken
      (.objectLit [.spreadAssignment (.ident "x"), .shorthand (.ident "a") none,
                   .shorthand (.ident "b") none])]]] =
      [⟨.ident "a", "variable \x27a\x27 is assigned to itself."⟩,
       ⟨.ident "b", "variable \x27b\x27 is assigned to itself."⟩] ∧
    applyRule [] [Node.other [Node.other [Node.binary
      (.objectLit [.shorthand (.ident "a") none, .shorthand (.ident "b") none])
      .equalsToken
      (.objectLit [.shorthand (.ident "b") none, .shorthand (.ident "a") none])]]] =
      [⟨.ident "a", "variable \x27a\x27 is assigned to itself."⟩,
       ⟨.ident "b", "variable \x27b\x27 is assigned to itself."⟩] := by
  refine ⟨startRightOf_eq_zero, ?_, ?_, ?_, ?_, ?_⟩
  · intro pre post p hp hpost
    induction pre with
    | nil => simp [startRightOf, startRightOf_eq_zero post hpost, hp]
    | cons a rest ih => simp [startRightOf, ih]
  · intro props lps rps
    simp [doCheck, isSameIdentifier, checkObjectProps_eq_flatMap]
  · simp [applyRule, walkList, walkNode, walkOpt, checksAt, ruleOption, truthy,
      doCheck, checkObjectProps, checkLeftPropFrom, startRightOf,
      isSameIdentifier, isPropertySelfAssigned, Node.isSpreadAssignment,
      report, FAILURE_STRING, getText]
  · simp [applyRule, walkList, walkNode, walkOpt, checksAt, ruleOption, truthy,
      doCheck, checkObjectProps, checkLeftPropFrom, startRightOf,
      isSameIdentifier, isPropertySelfAssigned, Node.isSpreadAssignment,
      report, FAILURE_STRING, getText]
  · simp [applyRule, walkList, walkNode, walkOpt, checksAt, ruleOption, truthy,
      doCheck, checkObjectProps, checkLeftPropFrom, startRightOf,
      isSameIdentifier, isPropertySelfAssigned, Node.isSpreadAssignment,
      report, FAILURE_STRING, getText]

/-- C1 witness: the `startRight` characterizations applied at concrete
lists: no spread gives 0, and a last spread at index 1 gives 2. -/
theorem c1_object_all_pairs_after_last_spread_witness :
    startRightOf [Node.shorthand (.ident "a") none] = 0 ∧
    startRightOf [Node.shorthand (.ident "a") none,
      Node.spreadAssignment (.ident "x"),
      Node.shorthand (.ident "b") none] = 2 :=
  ⟨c1_object_all_pairs_after_last_spread.1 [Node.shorthand (.ident "a") none]
      (by decide),
   c1_object_all_pairs_after_last_spread.2.1
      [Node.shorthand (.ident "a") none] [Node.shorthand (.ident "b") none]
      (Node.spreadAssignment (.ident "x")) (by decide) (by decide)⟩

/-- C4: an element-access pair matches exactly when the two bases are
identifiers with equal text and the two keys are present and are either
two identifiers with equal text or two literals with equal text;
consequently `a["x"] = a["x"];` yields one finding while
`a[x] = a[y];` and `a[f()] = a[f()];` yield none. -/
theorem c4_element_access_exact_conditions :
    (∀ (b1 b2 : Node) (k1 k2 : Option Node),
      isSameElementAccess (.elemAccess b1 k1) (.elemAccess b2 k2) = true ↔
        ((∃ t, b1 = .ident t ∧ b2 = .ident t) ∧
         ∃ a1 a2, k1 = some a1 ∧ k2 = some a2 ∧
           ((∃ s, a1 = .ident s ∧ a2 = .ident s) ∨
            (∃ s r1 r2, a1 = .literal s r1 ∧ a2 = .literal s r2)))) ∧
    applyRule [] [Node.other [Node.binary
      (.elemAccess (.ident "a") (some (.literal "x" "\"x\""))) .equalsToken
      (.elemAccess (.ident "a") (some (.literal "x" "\"x\"")))]] =
      [⟨.elemAccess (.ident "a") (some (.literal "x" "\"x\"")),
        "variable \x27a[\"x\"]\x27 is assigned to itself."⟩] ∧
    applyRule [] [Node.other [Node.binary
      (.elemAccess (.ident "a") (some (.ident "x"))) .equalsToken
      (.elemAccess (.ident "a") (some (.ident "y")))]] = [] ∧
    applyRule [] [Node.other [Node.binary
      (.elemAccess (.ident "a") (some (.other [.ident "f"]))) .equalsToken
      (.elemAccess (.ident "a") (some (.other [.ident "f"])))]] = [] := by
  refine ⟨?_, ?_, ?_, ?_⟩
  · intro b1 b2 k1 k2
    rcases k1 with _ | a1
    · simp [isSameElementAccess_none_left]
    · rcases k2 with _ | a2
      · simp [isSameElementAccess_none_right]
      · rw [isSameElementAccess_some]
        simp [Bool.and_eq_true, isSameIdentifier_iff, sameKey_iff]
  · simp [applyRule, walkList, walkNode, walkOpt, checksAt, ruleOption, truthy,
      doCheck, isSameIdentifier, isSameElementAccess, isPropertySelfAssigned,
      report, FAILURE_STRING, getText]
  · simp [applyRule, walkList, walkNode, walkOpt, checksAt, ruleOption, truthy,
      doCheck, isSameIdentifier, isSameElementAccess, isPropertySelfAssigned,
      report, FAILURE_STRING, getText]
  · simp [applyRule, walkList, walkNode, walkOpt, checksAt, ruleOption, truthy,
      doCheck, isSameIdentifier, isSameElementAccess, isPropertySelfAssigned,
      report, FAILURE_STRING, getText]

/-- C6: a class field declared with identifier name `f` and initializer
`this.f` yields exactly one finding anchored at the initializer, for
every `f`; a field `f` with initializer `this.g` for `g` different from
`f` yields zero findings. -/
theorem c6_field_this_initializer :
    (∀ f : String,
      applyRule [] [Node.other [Node.propDecl (.ident f)
        (some (.propAccess .thisKeyword f))]] =
        [⟨.propAccess .thisKeyword f,
          "variable \x27this." ++ f ++ "\x27 is assigned to itself."⟩]) ∧
    (∀ f g : String, f ≠ g →
      applyRule [] [Node.other [Node.propDecl (.ident f)
        (some (.propAccess .thisKeyword g))]] = []) := by
  constructor
  · intro f
    simp [applyRule, walkList, walkNode, walkOpt, checksAt, ruleOption, truthy,
      doCheck, isSameIdentifier, isPropertySelfAssigned, report, FAILURE_STRING,
      getText, ← String.append_assoc]
  · intro f g h
    simp [applyRule, walkList, walkNode, walkOpt, checksAt, ruleOption, truthy,
      doCheck, isSameIdentifier, isPropertySelfAssigned, report, FAILURE_STRING,
      getText, h]

/-- C6 witness: field `foo` with initializer `this.foo` yields its one
finding, and with initializer `this.bar` yields none. -/
theorem c6_field_this_initializer_witness :
    applyRule [] [Node.other [Node.propDecl (.ident "foo")
      (some (.propAccess .thisKeyword "bar"))]] = [] :=
  c6_field_this_initializer.2 "foo" "bar" (by decide)

/-- C10: element-access literal keys are compared by their cooked text,
not their source text: for all base and raw texts, two literal keys with
equal cooked text match; concretely `a[\x27x\x27] = a["x"];` (different
quote styles) and `a[1] = a["1"];` (numeric against string literal with
the same text) each yield a finding. -/
theorem c10_literal_keys_compared_by_cooked_text :
    (∀ b t r1 r2 : String,
      isSameElementAccess
        (.elemAccess (.ident b) (some (.literal t r1)))
        (.elemAccess (.ident b) (some (.literal t r2))) = true) ∧
    applyRule [] [Node.other [Node.binary
      (.elemAccess (.ident "a") (some (.literal "x" "\x27x\x27"))) .equalsToken
      (.elemAccess (.ident "a") (some (.literal "x" "\"x\"")))]] =
      [⟨.elemAccess (.ident "a") (some (.literal "x" "\"x\"")),
        "variable \x27a[\"x\"]\x27 is assigned to itself."⟩] ∧
    applyRule [] [Node.other [Node.binary
      (.elemAccess (.ident "a") (some (.literal "1" "1"))) .equalsToken
      (.elemAccess (.ident "a") (some (.literal "1" "\"1\"")))]] =
      [⟨.elemAccess (.ident "a") (some (.literal "1" "\"1\"")),
        "variable \x27a[\"1\"]\x27 is assigned to itself."⟩] := by
  refine ⟨?_, ?_, ?_⟩
  · intro b t r1 r2
    simp [isSameElementAccess, isSameIdentifier]
  · simp [applyRule, walkList, walkNode, walkOpt, checksAt, ruleOption, truthy,
      doCheck, isSameIdentifier, isSameElementAccess, isPropertySelfAssigned,
      report, FAILURE_STRING, getText]
  · simp [applyRule, walkList, walkNode, walkOpt, checksAt, ruleOption, truthy,
      doCheck, isSameIdentifier, isSameElementAccess, isPropertySelfAssigned,
      report, FAILURE_STRING, getText]

end NoSelfAssign
